import Mathlib

/-
  Verification of the command-shaping control loop of
  src/code_v5_for_leader_manual_control.py.

  Shallow embedding conventions:
  * Python floats are modelled as exact rationals (ℚ); the script's
    arithmetic (clamped integration, low-pass filtering, max/min) is
    translated operation by operation.
  * The per-tick loop body (lines 146-229 of the script) becomes a pure
    state-transition function `step` on a record of the eight mutable
    loop variables plus the `has_taken_off` and `running` flags.
  * Key polling (`is_pressed_char`) becomes a record of booleans supplied
    per tick; an input stream is a function from tick index to that record.
  * The `finally` cleanup block (lines 231-248) becomes a function from a
    record saying which sink calls raise to the list of sink operations
    actually invoked: inside one `try`, an op that raises is still invoked
    but terminates its block; the following `except` swallows the error.
-/

namespace LeaderControl

/-- `DT = 0.05` (line 23 of the script). -/
def DT : ℚ := 5 / 100

/-- `MAX_LEADER_SPEED_XY = 4.0` (line 26). -/
def MAX_LEADER_SPEED_XY : ℚ := 4

/-- `MAX_LEADER_SPEED_Z = 2.0` (line 27). -/
def MAX_LEADER_SPEED_Z : ℚ := 2

/-- `YAW_RATE_DEG = 90.0` (line 28). -/
def YAW_RATE_DEG : ℚ := 90

/-- `ACCEL_XY = 3.0` (line 31). -/
def ACCEL_XY : ℚ := 3

/-- `DECEL_XY = 3.5` (line 32). -/
def DECEL_XY : ℚ := 7 / 2

/-- `ACCEL_Z = 2.0` (line 33). -/
def ACCEL_Z : ℚ := 2

/-- `DECEL_Z = 2.5` (line 34). -/
def DECEL_Z : ℚ := 5 / 2

/-- `ACCEL_YAW = 180.0` (line 35). -/
def ACCEL_YAW : ℚ := 180

/-- `DECEL_YAW = 220.0` (line 36). -/
def DECEL_YAW : ℚ := 220

/-- `SMOOTH_ALPHA = 0.2` (line 39). -/
def SMOOTH_ALPHA : ℚ := 1 / 5

/-- Line 65: `return max(min(x, max_val), min_val)`. -/
def clamp (x min_val max_val : ℚ) : ℚ := max (min x max_val) min_val

/-- Lines 82-85: `delta = clamp(target - current, -max_rate*dt, max_rate*dt);
return current + delta`. -/
def slew_limit (target current max_rate dt : ℚ) : ℚ :=
  current + clamp (target - current) (-(max_rate * dt)) (max_rate * dt)

/-- Lines 87-89: `return current + alpha * (target - current)`. -/
def low_pass_filter (target current alpha : ℚ) : ℚ :=
  current + alpha * (target - current)

/-- One axis of the accel/decel key handling, lines 155-164 (and the three
analogous blocks at lines 167-175, 178-186, 189-197): `pos`/`neg` are the
pressed states of the positive/negative direction keys of the axis. -/
def axis_update (pos neg : Bool) (tgt accel decel max_mag dt : ℚ) : ℚ :=
  if pos && !neg then clamp (tgt + accel * dt) (-max_mag) max_mag
  else if neg && !pos then clamp (tgt - accel * dt) (-max_mag) max_mag
  else if tgt > 0 then max 0 (tgt - decel * dt)
  else if tgt < 0 then min 0 (tgt + decel * dt)
  else tgt

/-- The key states read by one loop iteration (lines 149-204): one boolean
per polled key, as `is_pressed_char` / `is_pressed_vkey` would report them
during that tick. -/
structure Keys where
  w : Bool
  s : Bool
  a : Bool
  d : Bool
  u : Bool
  i : Bool
  j : Bool
  l : Bool
  k : Bool
  p : Bool
  esc : Bool

/-- The mutable state of the control loop (lines 129-142): the four
integrating targets, the four smoothed commands, the `has_taken_off` flag
and the `running` flag. -/
structure LoopState where
  tgt_vx : ℚ
  tgt_vy : ℚ
  tgt_vz : ℚ
  tgt_yaw_rate : ℚ
  sm_vx : ℚ
  sm_vy : ℚ
  sm_vz : ℚ
  sm_yaw_rate : ℚ
  has_taken_off : Bool
  running : Bool

/-- Loop state right after takeoff, before the first iteration
(lines 129-142): all eight command values are `0.0`, `has_taken_off = True`,
`running = True`. -/
def initState : LoopState :=
  ⟨0, 0, 0, 0, 0, 0, 0, 0, true, true⟩

/-- The body of one loop iteration once ESC was found unpressed
(lines 153-224): the four axis updates, the K yaw-zero override (lines
200-201), the P land check (lines 204-209), then the four low-pass filter
updates (lines 212-215) applied to the updated targets. -/
def stepBody (ks : Keys) (st : LoopState) : LoopState :=
  let tvx := axis_update ks.w ks.s st.tgt_vx ACCEL_XY DECEL_XY MAX_LEADER_SPEED_XY DT
  let tvy := axis_update ks.d ks.a st.tgt_vy ACCEL_XY DECEL_XY MAX_LEADER_SPEED_XY DT
  let tvz := axis_update ks.i ks.u st.tgt_vz ACCEL_Z DECEL_Z MAX_LEADER_SPEED_Z DT
  let tyaw := if ks.k then 0
    else axis_update ks.l ks.j st.tgt_yaw_rate ACCEL_YAW DECEL_YAW YAW_RATE_DEG DT
  ⟨tvx, tvy, tvz, tyaw,
    low_pass_filter tvx st.sm_vx SMOOTH_ALPHA,
    low_pass_filter tvy st.sm_vy SMOOTH_ALPHA,
    low_pass_filter tvz st.sm_vz SMOOTH_ALPHA,
    low_pass_filter tyaw st.sm_yaw_rate SMOOTH_ALPHA,
    if ks.p && st.has_taken_off then false else st.has_taken_off,
    true⟩

/-- `st` with `running := false` (the ESC branch, lines 149-151). -/
def stopped (st : LoopState) : LoopState :=
  ⟨st.tgt_vx, st.tgt_vy, st.tgt_vz, st.tgt_yaw_rate,
    st.sm_vx, st.sm_vy, st.sm_vz, st.sm_yaw_rate,
    st.has_taken_off, false⟩

/-- One iteration of `while running` (lines 146-229): if the loop already
stopped the state is unchanged; if ESC is pressed the loop breaks before any
axis update; otherwise the body runs. -/
def step (ks : Keys) (st : LoopState) : LoopState :=
  if st.running then (if ks.esc then stopped st else stepBody ks st) else st

/-- The loop state after `n` iterations fed by the input stream `inp`
(`inp t` is the key state polled during iteration `t`). -/
def stateAt (inp : ℕ → Keys) : ℕ → LoopState
  | 0 => initState
  | n + 1 => step (inp n) (stateAt inp n)

/-- Whether iteration `n` reaches line 207 and invokes the in-loop
`client.landAsync(...)`: the loop must still be running, ESC not pressed,
P pressed and `has_taken_off` still true (lines 204-206). -/
def land_invoked (ks : Keys) (st : LoopState) : Bool :=
  st.running && !ks.esc && ks.p && st.has_taken_off

/-- Sink operations invoked by the script that matter to the session
lifecycle claims. -/
inductive SinkOp where
  | hover
  | land
  | disarm
  | releaseControl
  deriving DecidableEq

/-- Which sink calls raise an exception when invoked, for one run of the
cleanup block (the mock-fault pattern of the spec scenario). -/
structure Fails where
  hover : Bool
  land : Bool
  disarm : Bool
  releaseControl : Bool

/-- Python `try` semantics for a straight-line block of sink calls: each op
is invoked in order; an op that raises is still invoked, but the rest of the
block is skipped (control goes to the `except` handler). -/
def runBlock : List (SinkOp × Bool) → List SinkOp
  | [] => []
  | (op, raised) :: rest => op :: (if raised then [] else runBlock rest)

/-- The `finally` cleanup of `main` (lines 231-248): a first
`try ... except` wrapping hover, a pause and the landing call (lines
233-241), then a second `try ... except: pass` wrapping disarm and
control release (lines 244-248). Returns the list of sink ops invoked. -/
def cleanup (f : Fails) : List SinkOp :=
  runBlock [(SinkOp.hover, f.hover), (SinkOp.land, f.land)]
    ++ runBlock [(SinkOp.disarm, f.disarm), (SinkOp.releaseControl, f.releaseControl)]

/-- Why the `while running` loop was exited: ESC-triggered `break` (normal
exit of the `try` body) or an exception escaping a tick (e.g. a failing
dispatch call). -/
inductive ExitKind where
  | escExit
  | loopError

/-- The cleanup ops invoked once the loop exits: the `finally` block runs
the same cleanup code on both the normal and the exceptional path. -/
def sessionCleanupTrace (e : ExitKind) (f : Fails) : List SinkOp :=
  match e with
  | ExitKind.escExit => cleanup f
  | ExitKind.loopError => cleanup f

/-- In-loop sink ops recorded over the first `n` iterations: iteration `t`
contributes one `land` op when it reaches line 207. -/
def loopTrace (inp : ℕ → Keys) : ℕ → List SinkOp
  | 0 => []
  | n + 1 => loopTrace inp n
      ++ (if land_invoked (inp n) (stateAt inp n) then [SinkOp.land] else [])

/-- All lifecycle-relevant sink ops of one session in which the loop ran
`n` iterations and then exited for reason `e`: the in-loop ops followed by
the single `finally` cleanup. -/
def sessionTrace (inp : ℕ → Keys) (n : ℕ) (e : ExitKind) (f : Fails) : List SinkOp :=
  loopTrace inp n ++ sessionCleanupTrace e f

/-- Iterated low-pass filter with constant target: `lpfIter alpha target c n`
is the smoothed value after `n` applications of lines 87-89 starting
from `c`. -/
def lpfIter (alpha target c : ℚ) : ℕ → ℚ
  | 0 => c
  | n + 1 => low_pass_filter target (lpfIter alpha target c n) alpha

/-- Iterated decelerate-toward-zero branch (lines 159-164): the target after
`n` ticks during which neither direction key of the axis is pressed. -/
def decel_iter (accel decel max_mag dt t0 : ℚ) : ℕ → ℚ
  | 0 => t0
  | n + 1 => axis_update false false (decel_iter accel decel max_mag dt t0 n)
      accel decel max_mag dt

/-- Line 228: `sleep_time = max(0.0, DT - elapsed)`. -/
def sleep_time (elapsed : ℚ) : ℚ := max 0 (DT - elapsed)

/-- No key pressed. -/
def keysNone : Keys := ⟨false, false, false, false, false, false, false, false, false, false, false⟩

/-- Only W (forward) pressed. -/
def keysW : Keys := ⟨true, false, false, false, false, false, false, false, false, false, false⟩

/-- Only L (yaw right) pressed. -/
def keysL : Keys := ⟨false, false, false, false, false, false, false, true, false, false, false⟩

/-- Only K (zero yaw rate) pressed. -/
def keysK : Keys := ⟨false, false, false, false, false, false, false, false, true, false, false⟩

/-- Only P (land) pressed. -/
def keysP : Keys := ⟨false, false, false, false, false, false, false, false, false, true, false⟩

/-- Input stream with no key ever pressed. -/
def inpNone : ℕ → Keys := fun _ => keysNone

/-- Input stream holding W forever. -/
def inpW : ℕ → Keys := fun _ => keysW

/-- Input stream: L held on ticks 0 and 1, K pressed on tick 2, nothing
afterwards. -/
def inpLLK : ℕ → Keys := fun n =>
  if n = 0 then keysL else if n = 1 then keysL else if n = 2 then keysK else keysNone

theorem le_clamp (x min_val max_val : ℚ) : min_val ≤ clamp x min_val max_val :=
  le_max_right _ _

theorem clamp_le (x min_val max_val : ℚ) (h : min_val ≤ max_val) :
    clamp x min_val max_val ≤ max_val :=
  max_le (min_le_right x max_val) h

/-- Magnitude invariant of one axis update: if the previous target respects
the configured bound, so does the new one, for any key combination. -/
theorem axis_update_abs_le (pos neg : Bool) (tgt accel decel max_mag dt : ℚ)
    (hd : 0 ≤ decel) (hM : 0 ≤ max_mag) (hdt : 0 ≤ dt)
    (ht : |tgt| ≤ max_mag) :
    |axis_update pos neg tgt accel decel max_mag dt| ≤ max_mag := by
  obtain ⟨ht1, ht2⟩ := abs_le.mp ht
  have hdd : 0 ≤ decel * dt := mul_nonneg hd hdt
  have hMM : -max_mag ≤ max_mag := by linarith
  rw [abs_le]
  unfold axis_update
  split_ifs with h1 h2 h3 h4
  · exact ⟨le_clamp _ _ _, clamp_le _ _ _ hMM⟩
  · exact ⟨le_clamp _ _ _, clamp_le _ _ _ hMM⟩
  · refine ⟨?_, max_le hM (by linarith)⟩
    have := le_max_left (0 : ℚ) (tgt - decel * dt)
    linarith
  · refine ⟨le_min (by linarith) (by linarith), ?_⟩
    have := min_le_left (0 : ℚ) (tgt + decel * dt)
    linarith
  · exact ⟨ht1, ht2⟩

/-- Rate invariant of one axis update: the target moves by at most
`max accel decel * dt` in one tick, for any key combination. -/
theorem axis_update_rate (pos neg : Bool) (tgt accel decel max_mag dt : ℚ)
    (ha : 0 ≤ accel) (hd : 0 ≤ decel) (hdt : 0 ≤ dt)
    (ht : |tgt| ≤ max_mag) :
    |axis_update pos neg tgt accel decel max_mag dt - tgt| ≤ max accel decel * dt := by
  obtain ⟨ht1, ht2⟩ := abs_le.mp ht
  have hadt : 0 ≤ accel * dt := mul_nonneg ha hdt
  have hddt : 0 ≤ decel * dt := mul_nonneg hd hdt
  have hma : accel * dt ≤ max accel decel * dt :=
    mul_le_mul_of_nonneg_right (le_max_left accel decel) hdt
  have hmd : decel * dt ≤ max accel decel * dt :=
    mul_le_mul_of_nonneg_right (le_max_right accel decel) hdt
  rw [abs_le]
  unfold axis_update
  split_ifs with h1 h2 h3 h4
  · constructor
    · have hlow : tgt ≤ clamp (tgt + accel * dt) (-max_mag) max_mag :=
        le_trans (le_min (by linarith) ht2) (le_max_left _ _)
      linarith
    · have hup : clamp (tgt + accel * dt) (-max_mag) max_mag ≤ tgt + accel * dt := by
        unfold clamp
        exact max_le (min_le_left _ _) (by linarith)
      linarith
  · constructor
    · have hlow : tgt - accel * dt ≤ clamp (tgt - accel * dt) (-max_mag) max_mag := by
        unfold clamp
        exact le_trans (le_min le_rfl (by linarith)) (le_max_left _ _)
      linarith
    · have hup : clamp (tgt - accel * dt) (-max_mag) max_mag ≤ tgt := by
        unfold clamp
        exact max_le (le_trans (min_le_left _ _) (by linarith)) (by linarith)
      linarith
  · constructor
    · have := le_max_right (0 : ℚ) (tgt - decel * dt)
      linarith
    · have : max 0 (tgt - decel * dt) ≤ tgt := max_le (le_of_lt h3) (by linarith)
      linarith
  · constructor
    · have : tgt ≤ min 0 (tgt + decel * dt) := le_min (le_of_lt h4) (by linarith)
      linarith
    · have := min_le_right (0 : ℚ) (tgt + decel * dt)
      linarith
  · constructor <;> simp <;> linarith

/-- Claim C5: for every axis channel and every prior target value, one tick
of the target-integrator update with both direction keys pressed produces
exactly the same new target as one tick with neither key pressed: both
reduce to the decelerate-toward-zero branch of lines 159-164. -/
theorem both_keys_same_as_neither (tgt accel decel max_mag dt : ℚ) :
    axis_update true true tgt accel decel max_mag dt
      = axis_update false false tgt accel decel max_mag dt := by
  simp [axis_update]

/-- Claim C7: the per-tick sleep duration computed at line 228 equals
`max(0, DT - elapsed)`; it is never negative, and whenever the tick's
processing time exceeds `DT` it is exactly zero. -/
theorem sleep_time_spec (elapsed : ℚ) :
    sleep_time elapsed = max 0 (DT - elapsed) ∧
      0 ≤ sleep_time elapsed ∧
      (DT < elapsed → sleep_time elapsed = 0) := by
  refine ⟨rfl, le_max_left _ _, fun h => ?_⟩
  exact max_eq_left (by linarith)

theorem sleep_time_spec_witness :
    DT < 1 ∧ sleep_time 1 = 0 :=
  ⟨by norm_num [DT], (sleep_time_spec 1).2.2 (by norm_num [DT])⟩

/-- Claim C6: the command smoother computes
`new_current = current + alpha * (target - current)`, and for `alpha ∈ (0,1]`
and a constant target the iterated output always lies between the previous
output and the target (monotone approach, no oscillation), with the distance
to the target non-increasing. -/
theorem smoother_monotone (alpha target c : ℚ) (h0 : 0 < alpha) (h1 : alpha ≤ 1) :
    low_pass_filter target c alpha = c + alpha * (target - c) ∧
      (∀ n : ℕ, min (lpfIter alpha target c n) target ≤ lpfIter alpha target c (n + 1) ∧
        lpfIter alpha target c (n + 1) ≤ max (lpfIter alpha target c n) target) ∧
      (∀ n : ℕ, |target - lpfIter alpha target c (n + 1)| ≤ |target - lpfIter alpha target c n|) := by
  refine ⟨rfl, fun n => ?_, fun n => ?_⟩
  · have hrw : lpfIter alpha target c (n + 1)
        = lpfIter alpha target c n + alpha * (target - lpfIter alpha target c n) := rfl
    set x := lpfIter alpha target c n with hx
    rw [hrw]
    rcases le_total x target with h | h
    · rw [min_eq_left h, max_eq_right h]
      have e1 : 0 ≤ alpha * (target - x) := mul_nonneg h0.le (by linarith)
      have e2 : 0 ≤ (1 - alpha) * (target - x) := mul_nonneg (by linarith) (by linarith)
      constructor <;> nlinarith
    · rw [min_eq_right h, max_eq_left h]
      have e1 : alpha * (target - x) ≤ 0 := mul_nonpos_of_nonneg_of_nonpos h0.le (by linarith)
      have e2 : (1 - alpha) * (target - x) ≤ 0 :=
        mul_nonpos_of_nonneg_of_nonpos (by linarith) (by linarith)
      constructor <;> nlinarith
  · have hrw : lpfIter alpha target c (n + 1)
        = lpfIter alpha target c n + alpha * (target - lpfIter alpha target c n) := rfl
    set x := lpfIter alpha target c n with hx
    rw [hrw]
    have e : target - (x + alpha * (target - x)) = (1 - alpha) * (target - x) := by ring
    rw [e, abs_mul, abs_of_nonneg (by linarith : (0:ℚ) ≤ 1 - alpha)]
    have := abs_nonneg (target - x)
    nlinarith

theorem smoother_monotone_witness :
    (0 : ℚ) < 1/5 ∧ (1/5 : ℚ) ≤ 1 ∧
      min (lpfIter (1/5) 1 0 0) 1 ≤ lpfIter (1/5) 1 0 1 :=
  ⟨by norm_num, by norm_num,
    ((smoother_monotone (1/5) 1 0 (by norm_num) (by norm_num)).2.1 0).1⟩

theorem low_pass_filter_abs_le (target c max_mag alpha : ℚ)
    (ht : |target| ≤ max_mag) (hc : |c| ≤ max_mag)
    (h0 : 0 ≤ alpha) (h1 : alpha ≤ 1) :
    |low_pass_filter target c alpha| ≤ max_mag := by
  obtain ⟨ht1, ht2⟩ := abs_le.mp ht
  obtain ⟨hc1, hc2⟩ := abs_le.mp hc
  rw [abs_le, low_pass_filter]
  constructor <;>
    nlinarith [mul_nonneg h0 (by linarith : (0:ℚ) ≤ target + max_mag),
      mul_nonneg (by linarith : (0:ℚ) ≤ 1 - alpha) (by linarith : (0:ℚ) ≤ c + max_mag),
      mul_nonneg h0 (by linarith : (0:ℚ) ≤ max_mag - target),
      mul_nonneg (by linarith : (0:ℚ) ≤ 1 - alpha) (by linarith : (0:ℚ) ≤ max_mag - c)]

theorem max_mul_nonneg (a b c : ℚ) (ha : 0 ≤ a) (hc : 0 ≤ c) : 0 ≤ max a b * c :=
  mul_nonneg (le_trans ha (le_max_left a b)) hc

theorem step_of_not_running (ks : Keys) (st : LoopState) (h : st.running = false) :
    step ks st = st := by
  simp [step, h]

theorem step_of_esc (ks : Keys) (st : LoopState) (h1 : st.running = true)
    (h2 : ks.esc = true) : step ks st = stopped st := by
  simp [step, h1, h2]

theorem step_of_run (ks : Keys) (st : LoopState) (h1 : st.running = true)
    (h2 : ks.esc = false) : step ks st = stepBody ks st := by
  simp [step, h1, h2]

theorem stepBody_tgt_vx (ks : Keys) (st : LoopState) :
    (stepBody ks st).tgt_vx
      = axis_update ks.w ks.s st.tgt_vx ACCEL_XY DECEL_XY MAX_LEADER_SPEED_XY DT := rfl

theorem stepBody_tgt_vy (ks : Keys) (st : LoopState) :
    (stepBody ks st).tgt_vy
      = axis_update ks.d ks.a st.tgt_vy ACCEL_XY DECEL_XY MAX_LEADER_SPEED_XY DT := rfl

theorem stepBody_tgt_vz (ks : Keys) (st : LoopState) :
    (stepBody ks st).tgt_vz
      = axis_update ks.i ks.u st.tgt_vz ACCEL_Z DECEL_Z MAX_LEADER_SPEED_Z DT := rfl

theorem stepBody_tgt_yaw (ks : Keys) (st : LoopState) :
    (stepBody ks st).tgt_yaw_rate
      = (if ks.k then 0
          else axis_update ks.l ks.j st.tgt_yaw_rate ACCEL_YAW DECEL_YAW YAW_RATE_DEG DT) := rfl

theorem stepBody_sm_vx (ks : Keys) (st : LoopState) :
    (stepBody ks st).sm_vx
      = low_pass_filter (stepBody ks st).tgt_vx st.sm_vx SMOOTH_ALPHA := rfl

theorem stepBody_sm_vy (ks : Keys) (st : LoopState) :
    (stepBody ks st).sm_vy
      = low_pass_filter (stepBody ks st).tgt_vy st.sm_vy SMOOTH_ALPHA := rfl

theorem stepBody_sm_vz (ks : Keys) (st : LoopState) :
    (stepBody ks st).sm_vz
      = low_pass_filter (stepBody ks st).tgt_vz st.sm_vz SMOOTH_ALPHA := rfl

theorem stepBody_sm_yaw (ks : Keys) (st : LoopState) :
    (stepBody ks st).sm_yaw_rate
      = low_pass_filter (stepBody ks st).tgt_yaw_rate st.sm_yaw_rate SMOOTH_ALPHA := rfl

theorem stepBody_hto (ks : Keys) (st : LoopState) :
    (stepBody ks st).has_taken_off
      = (if ks.p && st.has_taken_off then false else st.has_taken_off) := rfl

theorem stepBody_running (ks : Keys) (st : LoopState) :
    (stepBody ks st).running = true := rfl

/-- Invariant of the whole loop: every target and every smoothed command
stays within its channel's configured magnitude, whatever keys are pressed. -/
theorem state_abs_bounds (inp : ℕ → Keys) : ∀ n : ℕ,
    |(stateAt inp n).tgt_vx| ≤ MAX_LEADER_SPEED_XY ∧
    |(stateAt inp n).tgt_vy| ≤ MAX_LEADER_SPEED_XY ∧
    |(stateAt inp n).tgt_vz| ≤ MAX_LEADER_SPEED_Z ∧
    |(stateAt inp n).tgt_yaw_rate| ≤ YAW_RATE_DEG ∧
    |(stateAt inp n).sm_vx| ≤ MAX_LEADER_SPEED_XY ∧
    |(stateAt inp n).sm_vy| ≤ MAX_LEADER_SPEED_XY ∧
    |(stateAt inp n).sm_vz| ≤ MAX_LEADER_SPEED_Z ∧
    |(stateAt inp n).sm_yaw_rate| ≤ YAW_RATE_DEG := by
  intro n
  induction n with
  | zero =>
      norm_num [stateAt, initState, MAX_LEADER_SPEED_XY, MAX_LEADER_SPEED_Z, YAW_RATE_DEG]
  | succ n ih =>
      obtain ⟨h1, h2, h3, h4, h5, h6, h7, h8⟩ := ih
      cases hr : (stateAt inp n).running with
      | false =>
          have hs : stateAt inp (n + 1) = stateAt inp n := by
            rw [stateAt, step_of_not_running _ _ hr]
          rw [hs]
          exact ⟨h1, h2, h3, h4, h5, h6, h7, h8⟩
      | true =>
          cases he : (inp n).esc with
          | true =>
              have hs : stateAt inp (n + 1) = stopped (stateAt inp n) := by
                rw [stateAt, step_of_esc _ _ hr he]
              rw [hs]
              exact ⟨h1, h2, h3, h4, h5, h6, h7, h8⟩
          | false =>
              have hs : stateAt inp (n + 1) = stepBody (inp n) (stateAt inp n) := by
                rw [stateAt, step_of_run _ _ hr he]
              have b1 : |(stepBody (inp n) (stateAt inp n)).tgt_vx| ≤ MAX_LEADER_SPEED_XY := by
                rw [stepBody_tgt_vx]
                exact axis_update_abs_le _ _ _ _ _ _ _ (by norm_num [DECEL_XY])
                  (by norm_num [MAX_LEADER_SPEED_XY]) (by norm_num [DT]) h1
              have b2 : |(stepBody (inp n) (stateAt inp n)).tgt_vy| ≤ MAX_LEADER_SPEED_XY := by
                rw [stepBody_tgt_vy]
                exact axis_update_abs_le _ _ _ _ _ _ _ (by norm_num [DECEL_XY])
                  (by norm_num [MAX_LEADER_SPEED_XY]) (by norm_num [DT]) h2
              have b3 : |(stepBody (inp n) (stateAt inp n)).tgt_vz| ≤ MAX_LEADER_SPEED_Z := by
                rw [stepBody_tgt_vz]
                exact axis_update_abs_le _ _ _ _ _ _ _ (by norm_num [DECEL_Z])
                  (by norm_num [MAX_LEADER_SPEED_Z]) (by norm_num [DT]) h3
              have b4 : |(stepBody (inp n) (stateAt inp n)).tgt_yaw_rate| ≤ YAW_RATE_DEG := by
                rw [stepBody_tgt_yaw]
                cases hk : (inp n).k with
                | true => simp [YAW_RATE_DEG]
                | false =>
                    rw [if_neg (by simp [hk])]
                    exact axis_update_abs_le _ _ _ _ _ _ _ (by norm_num [DECEL_YAW])
                      (by norm_num [YAW_RATE_DEG]) (by norm_num [DT]) h4
              refine hs ▸ ⟨b1, b2, b3, b4, ?_, ?_, ?_, ?_⟩
              · rw [stepBody_sm_vx]
                exact low_pass_filter_abs_le _ _ _ _ b1 h5
                  (by norm_num [SMOOTH_ALPHA]) (by norm_num [SMOOTH_ALPHA])
              · rw [stepBody_sm_vy]
                exact low_pass_filter_abs_le _ _ _ _ b2 h6
                  (by norm_num [SMOOTH_ALPHA]) (by norm_num [SMOOTH_ALPHA])
              · rw [stepBody_sm_vz]
                exact low_pass_filter_abs_le _ _ _ _ b3 h7
                  (by norm_num [SMOOTH_ALPHA]) (by norm_num [SMOOTH_ALPHA])
              · rw [stepBody_sm_yaw]
                exact low_pass_filter_abs_le _ _ _ _ b4 h8
                  (by norm_num [SMOOTH_ALPHA]) (by norm_num [SMOOTH_ALPHA])

/-- Claim C2 (amended): on every tick each target obeys its magnitude bound;
the per-tick change of the vx, vy and vz targets obeys the rate bound
`max accel decel * DT` for every key sequence, and the yaw-rate target obeys
its rate bound on every tick whose key state does not include K (the yaw
zero override of lines 200-201 can move the yaw target to 0 in one tick,
which can exceed the rate bound). -/
theorem target_bounded_and_rate_limited (inp : ℕ → Keys) (n : ℕ) :
    |(stateAt inp n).tgt_vx| ≤ MAX_LEADER_SPEED_XY ∧
    |(stateAt inp n).tgt_vy| ≤ MAX_LEADER_SPEED_XY ∧
    |(stateAt inp n).tgt_vz| ≤ MAX_LEADER_SPEED_Z ∧
    |(stateAt inp n).tgt_yaw_rate| ≤ YAW_RATE_DEG ∧
    |(stateAt inp (n + 1)).tgt_vx - (stateAt inp n).tgt_vx| ≤ max ACCEL_XY DECEL_XY * DT ∧
    |(stateAt inp (n + 1)).tgt_vy - (stateAt inp n).tgt_vy| ≤ max ACCEL_XY DECEL_XY * DT ∧
    |(stateAt inp (n + 1)).tgt_vz - (stateAt inp n).tgt_vz| ≤ max ACCEL_Z DECEL_Z * DT ∧
    ((inp n).k = false →
      |(stateAt inp (n + 1)).tgt_yaw_rate - (stateAt inp n).tgt_yaw_rate|
        ≤ max ACCEL_YAW DECEL_YAW * DT) := by
  obtain ⟨h1, h2, h3, h4, _, _, _, _⟩ := state_abs_bounds inp n
  cases hr : (stateAt inp n).running with
  | false =>
      have hs : stateAt inp (n + 1) = stateAt inp n := by
        rw [stateAt, step_of_not_running _ _ hr]
      refine ⟨h1, h2, h3, h4, ?_, ?_, ?_, fun _ => ?_⟩ <;>
        rw [hs, sub_self, abs_zero] <;>
        apply max_mul_nonneg <;>
        norm_num [ACCEL_XY, ACCEL_Z, ACCEL_YAW, DT]
  | true =>
      cases he : (inp n).esc with
      | true =>
          have hs : stateAt inp (n + 1) = stopped (stateAt inp n) := by
            rw [stateAt, step_of_esc _ _ hr he]
          refine ⟨h1, h2, h3, h4, ?_, ?_, ?_, fun _ => ?_⟩ <;>
            rw [hs] <;>
            simp only [stopped] <;>
            rw [sub_self, abs_zero] <;>
            apply max_mul_nonneg <;>
            norm_num [ACCEL_XY, ACCEL_Z, ACCEL_YAW, DT]
      | false =>
          have hs : stateAt inp (n + 1) = stepBody (inp n) (stateAt inp n) := by
            rw [stateAt, step_of_run _ _ hr he]
          refine ⟨h1, h2, h3, h4, ?_, ?_, ?_, fun hk => ?_⟩
          · rw [hs, stepBody_tgt_vx]
            exact axis_update_rate _ _ _ _ _ _ _ (by norm_num [ACCEL_XY])
              (by norm_num [DECEL_XY]) (by norm_num [DT]) h1
          · rw [hs, stepBody_tgt_vy]
            exact axis_update_rate _ _ _ _ _ _ _ (by norm_num [ACCEL_XY])
              (by norm_num [DECEL_XY]) (by norm_num [DT]) h2
          · rw [hs, stepBody_tgt_vz]
            exact axis_update_rate _ _ _ _ _ _ _ (by norm_num [ACCEL_Z])
              (by norm_num [DECEL_Z]) (by norm_num [DT]) h3
          · rw [hs, stepBody_tgt_yaw, if_neg (by simp [hk])]
            exact axis_update_rate _ _ _ _ _ _ _ (by norm_num [ACCEL_YAW])
              (by norm_num [DECEL_YAW]) (by norm_num [DT]) h4

theorem target_bounded_and_rate_limited_witness :
    (inpNone 0).k = false ∧
      |(stateAt inpNone 1).tgt_yaw_rate - (stateAt inpNone 0).tgt_yaw_rate|
        ≤ max ACCEL_YAW DECEL_YAW * DT :=
  ⟨rfl, (target_bounded_and_rate_limited inpNone 0).2.2.2.2.2.2.2 rfl⟩

/-- Claim C2 counterexample: after holding L for two ticks the yaw-rate
target is 18 deg/s; pressing K on the third tick moves it to 0, a per-tick
change of 18, which exceeds `max ACCEL_YAW DECEL_YAW * DT = 11`. So the
claimed rate bound does not hold for every key sequence on the yaw channel. -/
theorem yaw_zero_key_breaks_rate_bound :
    ¬ |(stateAt inpLLK 3).tgt_yaw_rate - (stateAt inpLLK 2).tgt_yaw_rate|
        ≤ max ACCEL_YAW DECEL_YAW * DT := by
  norm_num [stateAt, step, stepBody, axis_update, clamp, low_pass_filter, inpLLK,
    keysL, keysK, keysNone, initState, DT, ACCEL_XY, DECEL_XY, MAX_LEADER_SPEED_XY,
    ACCEL_Z, DECEL_Z, MAX_LEADER_SPEED_Z, ACCEL_YAW, DECEL_YAW, YAW_RATE_DEG,
    SMOOTH_ALPHA]

/-- Claim C9: starting from smoothed values 0, with `SMOOTH_ALPHA ∈ (0,1]`,
the smoothed values dispatched to the actuation sink also satisfy the
per-channel magnitude bounds on every tick, for every key sequence. -/
theorem dispatched_smoothed_bounded (inp : ℕ → Keys) (n : ℕ) :
    |(stateAt inp n).sm_vx| ≤ MAX_LEADER_SPEED_XY ∧
    |(stateAt inp n).sm_vy| ≤ MAX_LEADER_SPEED_XY ∧
    |(stateAt inp n).sm_vz| ≤ MAX_LEADER_SPEED_Z ∧
    |(stateAt inp n).sm_yaw_rate| ≤ YAW_RATE_DEG := by
  obtain ⟨_, _, _, _, h5, h6, h7, h8⟩ := state_abs_bounds inp n
  exact ⟨h5, h6, h7, h8⟩

/-- Once `has_taken_off` is false it stays false: no branch of the loop ever
sets it back to true. -/
theorem hto_step_false (inp : ℕ → Keys) (n : ℕ)
    (h : (stateAt inp n).has_taken_off = false) :
    (stateAt inp (n + 1)).has_taken_off = false := by
  cases hr : (stateAt inp n).running with
  | false => rw [stateAt, step_of_not_running _ _ hr]; exact h
  | true =>
      cases he : (inp n).esc with
      | true => rw [stateAt, step_of_esc _ _ hr he]; exact h
      | false =>
          rw [stateAt, step_of_run _ _ hr he, stepBody_hto, h]
          simp

theorem hto_mono (inp : ℕ → Keys) (n : ℕ)
    (h : (stateAt inp (n + 1)).has_taken_off = true) :
    (stateAt inp n).has_taken_off = true := by
  cases hf : (stateAt inp n).has_taken_off with
  | true => rfl
  | false =>
      rw [hto_step_false inp n hf] at h
      exact absurd h (by simp)

/-- The in-loop landing fires at most once, and only while `has_taken_off`
is still true. -/
theorem land_count_invariant (inp : ℕ → Keys) : ∀ n : ℕ,
    (loopTrace inp n).count SinkOp.land ≤ 1 ∧
    ((stateAt inp n).has_taken_off = true → (loopTrace inp n).count SinkOp.land = 0) := by
  intro n
  induction n with
  | zero => exact ⟨by simp [loopTrace], fun _ => by simp [loopTrace]⟩
  | succ n ih =>
      obtain ⟨ihle, ihz⟩ := ih
      cases hl : land_invoked (inp n) (stateAt inp n) with
      | false =>
          rw [loopTrace, if_neg (by simp [hl]), List.append_nil]
          exact ⟨ihle, fun h => ihz (hto_mono inp n h)⟩
      | true =>
          have hl2 := hl
          simp only [land_invoked, Bool.and_eq_true] at hl2
          obtain ⟨⟨⟨hrun, hesc⟩, hp⟩, hto⟩ := hl2
          have hz := ihz hto
          have hnew : (stateAt inp (n + 1)).has_taken_off = false := by
            rw [stateAt, step_of_run _ _ hrun (by simpa using hesc), stepBody_hto,
              hp, hto]
            simp
          rw [loopTrace, if_pos (by simp [hl]), List.count_append, hz]
          refine ⟨by simp, fun h => ?_⟩
          rw [hnew] at h
          exact absurd h (by simp)

/-- Claim C10: `has_taken_off` is true exactly once before the loop, the
first P-triggered landing sets it false and nothing ever sets it true again,
so the in-loop `landAsync` of line 207 executes at most once per session and
later P presses are no-ops. -/
theorem in_loop_land_at_most_once (inp : ℕ → Keys) (n : ℕ) :
    initState.has_taken_off = true ∧
    (loopTrace inp n).count SinkOp.land ≤ 1 ∧
    ((stateAt inp (n + 1)).has_taken_off = true →
      (stateAt inp n).has_taken_off = true) :=
  ⟨rfl, (land_count_invariant inp n).1, hto_mono inp n⟩

theorem in_loop_land_at_most_once_witness :
    initState.has_taken_off = true ∧
      (loopTrace inpNone 1).count SinkOp.land ≤ 1 ∧
      (stateAt inpNone 0).has_taken_off = true :=
  ⟨(in_loop_land_at_most_once inpNone 1).1,
    (in_loop_land_at_most_once inpNone 1).2.1,
    (in_loop_land_at_most_once inpNone 0).2.2
      (by simp [stateAt, step, stepBody, initState, inpNone, keysNone])⟩

/-- The loop itself only ever records `land` ops: it never disarms and never
releases control. -/
theorem loopTrace_no_disarm (inp : ℕ → Keys) : ∀ n : ℕ,
    (loopTrace inp n).count SinkOp.disarm = 0 ∧
    (loopTrace inp n).count SinkOp.releaseControl = 0 := by
  intro n
  induction n with
  | zero => simp [loopTrace]
  | succ n ih =>
      obtain ⟨i1, i2⟩ := ih
      cases hl : land_invoked (inp n) (stateAt inp n) with
      | false =>
          rw [loopTrace, if_neg (by simp [hl]), List.append_nil]
          exact ⟨i1, i2⟩
      | true =>
          rw [loopTrace, if_pos (by simp [hl])]
          constructor <;> rw [List.count_append] <;> simp [i1, i2]

/-- In the fault pattern of the spec scenario (disarm itself does not raise,
anything else may), both disarm and control release appear exactly once in
the cleanup trace. -/
theorem cleanup_disarm_release_count (hf lf rf : Bool) :
    (cleanup ⟨hf, lf, false, rf⟩).count SinkOp.disarm = 1 ∧
    (cleanup ⟨hf, lf, false, rf⟩).count SinkOp.releaseControl = 1 := by
  cases hf <;> cases lf <;> cases rf <;> exact ⟨by decide, by decide⟩

/-- Claim C1: even when the landing call (or the hover call) raises during
the `finally` cleanup, disarm and control release are still invoked, and each
is invoked exactly once per session, whether the flying loop exited through
ESC or through an exception, and whatever keys were pressed during flight. -/
theorem disarm_and_release_invoked_once (inp : ℕ → Keys) (n : ℕ) (e : ExitKind)
    (hf lf rf : Bool) :
    (sessionTrace inp n e ⟨hf, lf, false, rf⟩).count SinkOp.disarm = 1 ∧
    (sessionTrace inp n e ⟨hf, lf, false, rf⟩).count SinkOp.releaseControl = 1 := by
  obtain ⟨c1, c2⟩ := cleanup_disarm_release_count hf lf rf
  obtain ⟨i1, i2⟩ := loopTrace_no_disarm inp n
  cases e with
  | escExit =>
      exact ⟨by simp [sessionTrace, sessionCleanupTrace, List.count_append, i1, c1],
        by simp [sessionTrace, sessionCleanupTrace, List.count_append, i2, c2]⟩
  | loopError =>
      exact ⟨by simp [sessionTrace, sessionCleanupTrace, List.count_append, i1, c1],
        by simp [sessionTrace, sessionCleanupTrace, List.count_append, i2, c2]⟩

/-- Claim C3 counterexample: hover and the landing call live in the same
`try` block (lines 233-241), so when hover raises the landing command is
never invoked — contradicting the claim that a failing step never prevents
the next step from being attempted. -/
theorem hover_raise_skips_landing :
    SinkOp.land ∉ cleanup ⟨true, false, false, false⟩ := by decide

/-- Claim C3 (amended): the cleanup steps are wrapped as two blocks —
(hover, pause, land) in one `try`, (disarm, release control) in a second —
so a failure anywhere in the first block never prevents the second block:
disarm is always attempted (in particular when the landing call raises).
But within a block a raising step skips the rest of the block: if hover
raises, the landing command is not attempted, and if disarm raises, control
release is not attempted. -/
theorem cleanup_two_block_structure (hf lf df rf : Bool) :
    SinkOp.hover ∈ cleanup ⟨hf, lf, df, rf⟩ ∧
    SinkOp.disarm ∈ cleanup ⟨hf, lf, df, rf⟩ ∧
    (SinkOp.land ∈ cleanup ⟨hf, lf, df, rf⟩ ↔ hf = false) ∧
    (SinkOp.releaseControl ∈ cleanup ⟨hf, lf, df, rf⟩ ↔ df = false) := by
  cases hf <;> cases lf <;> cases df <;> cases rf <;> decide

theorem decel_iter_succ (accel decel max_mag dt t0 : ℚ) (n : ℕ) :
    decel_iter accel decel max_mag dt t0 (n + 1)
      = (if decel_iter accel decel max_mag dt t0 n > 0
          then max 0 (decel_iter accel decel max_mag dt t0 n - decel * dt)
          else if decel_iter accel decel max_mag dt t0 n < 0
            then min 0 (decel_iter accel decel max_mag dt t0 n + decel * dt)
            else decel_iter accel decel max_mag dt t0 n) := by
  rw [decel_iter]
  simp [axis_update]

theorem decel_iter_closed_nonneg (accel decel max_mag dt t0 : ℚ)
    (h0 : 0 ≤ t0) (hdd : 0 ≤ decel * dt) : ∀ n : ℕ,
    decel_iter accel decel max_mag dt t0 n = max 0 (t0 - n * (decel * dt)) := by
  intro n
  induction n with
  | zero =>
      rw [decel_iter, Nat.cast_zero, zero_mul, sub_zero, max_eq_right h0]
  | succ n ih =>
      rw [decel_iter_succ, ih]
      by_cases hpos : (0:ℚ) < t0 - (n : ℚ) * (decel * dt)
      · rw [max_eq_right hpos.le, if_pos hpos]
        congr 1
        push_cast
        ring
      · have hA : t0 - (n : ℚ) * (decel * dt) ≤ 0 := le_of_not_lt hpos
        rw [max_eq_left hA, if_neg (lt_irrefl 0), if_neg (lt_irrefl 0)]
        symm
        apply max_eq_left
        have e : t0 - ((n : ℕ) + 1 : ℚ) * (decel * dt)
            = (t0 - (n : ℚ) * (decel * dt)) - decel * dt := by ring
        push_cast
        rw [e]
        linarith

theorem decel_iter_closed_nonpos (accel decel max_mag dt t0 : ℚ)
    (h0 : t0 ≤ 0) (hdd : 0 ≤ decel * dt) : ∀ n : ℕ,
    decel_iter accel decel max_mag dt t0 n = min 0 (t0 + n * (decel * dt)) := by
  intro n
  induction n with
  | zero =>
      rw [decel_iter, Nat.cast_zero, zero_mul, add_zero, min_eq_right h0]
  | succ n ih =>
      rw [decel_iter_succ, ih]
      by_cases hneg : t0 + (n : ℚ) * (decel * dt) < 0
      · rw [min_eq_right hneg.le, if_neg (by linarith), if_pos hneg]
        congr 1
        push_cast
        ring
      · have hA : (0:ℚ) ≤ t0 + (n : ℚ) * (decel * dt) := le_of_not_lt hneg
        rw [min_eq_left hA, if_neg (lt_irrefl 0), if_neg (lt_irrefl 0)]
        symm
        apply min_eq_left
        have e : t0 + ((n : ℕ) + 1 : ℚ) * (decel * dt)
            = (t0 + (n : ℚ) * (decel * dt)) + decel * dt := by ring
        push_cast
        rw [e]
        linarith

/-- Claim C4: with `decel > 0` and `dt > 0`, if on every subsequent tick
neither direction key of the axis is pressed, the target reaches exactly 0
within `⌈|t0| / (decel*dt)⌉` ticks, and it never changes sign on the way
(every iterate keeps the sign of the initial target, or is 0). -/
theorem release_decays_to_zero (accel decel max_mag dt t0 : ℚ)
    (hd : 0 < decel) (hdt : 0 < dt) :
    decel_iter accel decel max_mag dt t0 ⌈|t0| / (decel * dt)⌉₊ = 0 ∧
    ∀ n : ℕ, 0 ≤ t0 * decel_iter accel decel max_mag dt t0 n := by
  have hdd : (0:ℚ) < decel * dt := mul_pos hd hdt
  rcases le_total 0 t0 with h0 | h0
  · have hc := decel_iter_closed_nonneg accel decel max_mag dt t0 h0 hdd.le
    constructor
    · rw [abs_of_nonneg h0, hc]
      apply max_eq_left
      have h1 : t0 / (decel * dt) ≤ (⌈t0 / (decel * dt)⌉₊ : ℚ) := Nat.le_ceil _
      rw [div_le_iff₀ hdd] at h1
      linarith
    · intro n
      rw [hc n]
      exact mul_nonneg h0 (le_max_left 0 _)
  · have hc := decel_iter_closed_nonpos accel decel max_mag dt t0 h0 hdd.le
    constructor
    · rw [abs_of_nonpos h0, hc]
      apply min_eq_left
      have h1 : -t0 / (decel * dt) ≤ (⌈-t0 / (decel * dt)⌉₊ : ℚ) := Nat.le_ceil _
      rw [div_le_iff₀ hdd] at h1
      linarith
    · intro n
      rw [hc n]
      have := min_le_left (0:ℚ) (t0 + (n : ℚ) * (decel * dt))
      nlinarith

theorem release_decays_to_zero_witness :
    (0:ℚ) < 7/2 ∧ (0:ℚ) < 1/20 ∧
      decel_iter 3 (7/2) 4 (1/20) 2 ⌈|(2:ℚ)| / ((7/2) * (1/20))⌉₊ = 0 ∧
      0 ≤ (2:ℚ) * decel_iter 3 (7/2) 4 (1/20) 2 5 :=
  ⟨by norm_num, by norm_num,
    (release_decays_to_zero 3 (7/2) 4 (1/20) 2 (by norm_num) (by norm_num)).1,
    (release_decays_to_zero 3 (7/2) 4 (1/20) 2 (by norm_num) (by norm_num)).2 5⟩

/-- Claim C8: with `DT = 0.05`, `ACCEL_XY = 3.0`, `MAX_LEADER_SPEED_XY = 4.0`,
holding W (and not S) from rest gives a forward target of exactly
`3.0 = 20 * ACCEL_XY * DT` after tick 20 — still strictly below the clamp
bound — and exactly `4.0` (clamped) after tick 27. -/
theorem forward_hold_concrete :
    (stateAt inpW 20).tgt_vx = 3 ∧
    (stateAt inpW 20).tgt_vx = 20 * (ACCEL_XY * DT) ∧
    (stateAt inpW 20).tgt_vx < MAX_LEADER_SPEED_XY ∧
    (stateAt inpW 27).tgt_vx = MAX_LEADER_SPEED_XY := by
  norm_num [stateAt, step, stepBody, axis_update, clamp, low_pass_filter, inpW, keysW,
    initState, DT, ACCEL_XY, DECEL_XY, MAX_LEADER_SPEED_XY, ACCEL_Z, DECEL_Z,
    MAX_LEADER_SPEED_Z, ACCEL_YAW, DECEL_YAW, YAW_RATE_DEG, SMOOTH_ALPHA]

end LeaderControl
